import Mathlib

/-!
Verification of the mtcute transport-and-session core specification against
the sources.  The SQLite-backed storage (packages/sqlite/index.ts) is embedded
directly from the source; the Update Manager, Session message layer and the
Diffie-Hellman parameter validation are not present in the sources, so they are
modelled from the specification text as marked on each definition.
-/

namespace Mtcute

/-! ### Association-list model of SQLite tables keyed by a primary key

`insert or replace` on a primary-key column replaces the existing row,
`delete` removes every matching row, `select ... where pk = ?` with `.get`
returns the single matching row when present. -/

def assocGet {α β : Type} [DecidableEq α] : List (α × β) → α → Option β
  | [], _ => none
  | (k, v) :: rest, k' => if k = k' then some v else assocGet rest k'

def assocSet {α β : Type} [DecidableEq α] : List (α × β) → α → β → List (α × β)
  | [], k', v' => [(k', v')]
  | (k, v) :: rest, k', v' =>
    if k = k' then (k', v') :: rest else (k, v) :: assocSet rest k' v'

def assocDel {α β : Type} [DecidableEq α] (l : List (α × β)) (k' : α) : List (α × β) :=
  l.filter (fun p => decide (p.1 ≠ k'))

theorem assocGet_set_self {α β : Type} [DecidableEq α] (l : List (α × β)) (k : α) (v : β) :
    assocGet (assocSet l k v) k = some v := by
  induction l with
  | nil => simp [assocSet, assocGet]
  | cons hd tl ih =>
    obtain ⟨k0, v0⟩ := hd
    by_cases h : k0 = k <;> simp [assocSet, assocGet, h, ih]

theorem assocGet_set_ne {α β : Type} [DecidableEq α] (l : List (α × β)) (k k' : α) (v : β)
    (h : k' ≠ k) : assocGet (assocSet l k' v) k = assocGet l k := by
  induction l with
  | nil => simp [assocSet, assocGet, h]
  | cons hd tl ih =>
    obtain ⟨k0, v0⟩ := hd
    by_cases h0 : k0 = k' <;> simp [assocSet, assocGet, h0, h, ih]

theorem assocGet_del_self {α β : Type} [DecidableEq α] (l : List (α × β)) (k : α) :
    assocGet (assocDel l k) k = none := by
  induction l with
  | nil => simp [assocDel, assocGet]
  | cons hd tl ih =>
    obtain ⟨k0, v0⟩ := hd
    by_cases h : k0 = k
    · simpa [assocDel, h] using ih
    · simpa [assocDel, assocGet, h] using ih

/-! ### Access-hash serialization (packages/sqlite/index.ts, lines 17-26)

tl.Long values are arbitrary-precision integers from the big-integer library.
`hash.toArray(256)` yields the base-256 digits of the absolute value, most
significant first (the digit list of zero is `[0]`), together with the sign;
`bigInt.fromArray(digits, 256, isNegative)` rebuilds the value from the
most-significant-first digits and negates it when the sign flag is truthy.
A serialized hash is the digit list with one trailing sign byte (1 when
negative, 0 otherwise); parsing splits the buffer back into digits
(`slice(0, -1)`) and the sign byte (`arr[arr.length - 1]`). -/

def toArray256 (n : Nat) : List Nat :=
  if n = 0 then [0] else (Nat.digits 256 n).reverse

def fromArray256 (digits : List Nat) (isNeg : Bool) : Int :=
  let v : Int := (Nat.ofDigits 256 digits.reverse : Nat)
  if isNeg then -v else v

def serializeAccessHash (h : Int) : List Nat :=
  toArray256 h.natAbs ++ [if h < 0 then 1 else 0]

def parseAccessHash (buf : List Nat) : Int :=
  fromArray256 buf.dropLast (decide ((buf.getLast?.getD 0) ≠ 0))

theorem toArray256_roundtrip (n : Nat) :
    (Nat.ofDigits 256 (toArray256 n).reverse : Nat) = n := by
  unfold toArray256
  by_cases h : n = 0
  · simp [h, Nat.ofDigits]
  · simp [h, Nat.ofDigits_digits]

/-- Claim C9: access-hash serialization round trip.  For every integer value
of the hash (in particular every 64-bit value, positive or negative),
parsing the serialized form gives back the original value. -/
theorem c9_access_hash_roundtrip (h : Int) :
    parseAccessHash (serializeAccessHash h) = h := by
  unfold parseAccessHash serializeAccessHash fromArray256
  rw [List.dropLast_concat, List.getLast?_concat]
  by_cases hneg : h < 0
  · have habs : (h.natAbs : Int) = -h := by omega
    simp [hneg, toArray256_roundtrip, habs]
  · have habs : (h.natAbs : Int) = h := by omega
    simp [hneg, toArray256_roundtrip, habs]

/-! ### Entities table and input peers (packages/sqlite/index.ts)

The entities table columns are id, hash (blob), type, username, phone,
updated (timestamp), full (blob).  The type column only ever receives the
strings user, chat and channel, the three cases getInputPeer handles.
MAX_CHANNEL_ID is imported from the mtcute core package (not among the
sources); its value there is 1000000000000. -/

inductive PeerType
  | user
  | chat
  | channel
deriving DecidableEq

structure EntityRow where
  id : Int
  hash : List Nat
  type : PeerType
  username : Option String
  phone : Option String
  updated : Int
  full : List Nat
deriving DecidableEq

def MAX_CHANNEL_ID : Int := 1000000000000

inductive InputPeer
  | inputPeerUser (userId : Int) (accessHash : Int)
  | inputPeerChat (chatId : Int)
  | inputPeerChannel (channelId : Int) (accessHash : Int)
deriving DecidableEq

def getInputPeer (row : EntityRow) : InputPeer :=
  match row.type with
  | .user => .inputPeerUser row.id (parseAccessHash row.hash)
  | .chat => .inputPeerChat (-row.id)
  | .channel => .inputPeerChannel (MAX_CHANNEL_ID - row.id) (parseAccessHash row.hash)

/-! ### The SQLite storage state (packages/sqlite/index.ts)

The database holds the kv, auth_keys, pts and entities tables.  The kv values
relevant here (ver, pts, date, seq) are JSON-encoded numbers; JSON stringify
followed by parse is the identity on them, so kv values are modelled as
integers directly.  Byte buffers (auth keys, hashes, serialized entities) are
modelled as lists of bytes. -/

structure Db where
  kv : List (String × Int)
  authKeys : List (Nat × List Nat)
  pts : List (Nat × Int)
  entities : List EntityRow

/-- The prepared statements that setter methods push onto the pending queue:
setKv, delKv, setAuth, delAuth, setPts, upsertEnt (all with bound
parameters). -/
inductive Stmt
  | setKv (key : String) (value : Int)
  | delKv (key : String)
  | setAuth (dc : Nat) (key : List Nat)
  | delAuth (dc : Nat)
  | setPts (channelId : Nat) (pts : Int)
  | upsertEnt (row : EntityRow)
deriving DecidableEq

def runStmt (db : Db) : Stmt → Db
  | .setKv k v => { db with kv := assocSet db.kv k v }
  | .delKv k => { db with kv := assocDel db.kv k }
  | .setAuth dc key => { db with authKeys := assocSet db.authKeys dc key }
  | .delAuth dc => { db with authKeys := assocDel db.authKeys dc }
  | .setPts cid p => { db with pts := assocSet db.pts cid p }
  | .upsertEnt row =>
    { db with entities := row :: db.entities.filter (fun r => decide (r.id ≠ row.id)) }

/-- The storage object: the database plus the pending write queue
(this._pending).  The throttled unimportant-entity flush
(this._pendingUnimportant) only rewrites cached entity rows and is not
involved in any claim, so it is not modelled. -/
structure Storage where
  db : Db
  pending : List Stmt

/-- State right after load() on a fresh database: the tables are created and
the kv row ver = 1 is written immediately (now = true). -/
def initStorage : Storage :=
  { db := { kv := [("ver", 1)], authKeys := [], pts := [], entities := [] }, pending := [] }

/-- save(): returns immediately when nothing is pending, otherwise runs every
pending statement in order inside one transaction and empties the queue. -/
def save (s : Storage) : Storage :=
  if s.pending = [] then s
  else { db := s.pending.foldl runStmt s.db, pending := [] }

def getFromKv (s : Storage) (key : String) : Option Int :=
  assocGet s.db.kv key

def setToKv (s : Storage) (key : String) (value : Option Int) : Storage :=
  { s with
    pending := s.pending ++ [match value with
      | none => .delKv key
      | some v => .setKv key v] }

def getAuthKeyFor (s : Storage) (dcId : Nat) : Option (List Nat) :=
  assocGet s.db.authKeys dcId

def setAuthKeyFor (s : Storage) (dcId : Nat) (key : Option (List Nat)) : Storage :=
  { s with
    pending := s.pending ++ [match key with
      | none => .delAuth dcId
      | some k => .setAuth dcId k] }

def getUpdatesState (s : Storage) : Option (Int × Option Int × Option Int) :=
  match getFromKv s "pts" with
  | none => none
  | some pts => some (pts, getFromKv s "date", getFromKv s "seq")

def setUpdatesPts (s : Storage) (val : Int) : Storage := setToKv s "pts" (some val)

def setUpdatesDate (s : Storage) (val : Int) : Storage := setToKv s "date" (some val)

def setUpdatesSeq (s : Storage) (val : Int) : Storage := setToKv s "seq" (some val)

def getChannelPts (s : Storage) (entityId : Nat) : Option Int :=
  assocGet s.db.pts entityId

def setManyChannelPts (s : Storage) (values : List (Nat × Int)) : Storage :=
  { s with pending := s.pending ++ values.map (fun cv => Stmt.setPts cv.1 cv.2) }

def USERNAME_TTL : Int := 86400000

/-- The toLowerCase call on the looked-up username, modelled over the
character list. -/
def lowercase (s : String) : String := ⟨s.data.map Char.toLower⟩

/-- getPeerByUsername: looks the lowercased username up in the entities table;
when the row is absent or was last updated more than USERNAME_TTL
milliseconds ago, returns null, otherwise builds the input peer from the
row.  now is the value of Date.now(). -/
def getPeerByUsername (s : Storage) (now : Int) (username : String) : Option InputPeer :=
  match s.db.entities.find? (fun r => decide (r.username = some (lowercase username))) with
  | none => none
  | some row =>
    if now - row.updated > USERNAME_TTL then none else some (getInputPeer row)

/-! ### reset() and SQLite comparison semantics

reset() executes: delete from kv; delete from auth_keys where key <> ver;
delete from pts; delete from entities.  The where clause compares the key
column of auth_keys, which holds blobs, against the text literal ver.  Under
SQLite comparison rules values of different storage classes are never equal
(TEXT sorts before BLOB), so the clause is true for every row and every auth
key is deleted. -/

inductive SqlValue
  | intVal (i : Int)
  | textVal (t : String)
  | blobVal (b : List Nat)

/-- SQLite equality: values of the same storage class compare by value;
values of different storage classes are never equal. -/
def sqlEq : SqlValue → SqlValue → Bool
  | .intVal a, .intVal b => decide (a = b)
  | .textVal a, .textVal b => decide (a = b)
  | .blobVal a, .blobVal b => decide (a = b)
  | _, _ => false

/-- reset(): clears kv, pts and entities, and deletes every auth_keys row
whose key (a blob) is distinct from the text literal ver — keeping exactly
the rows where the blob equals that text value. -/
def reset (s : Storage) : Storage :=
  { s with
    db := { kv := [],
            authKeys := s.db.authKeys.filter
              (fun r => sqlEq (.blobVal r.2) (.textVal "ver")),
            pts := [],
            entities := [] } }

/-- Claim C5: auth-key storage round trip.  From any storage state, writing a
key for a dc and flushing makes the getter return exactly that key; writing
null and flushing makes it return null. -/
theorem c5_authkey_roundtrip (s : Storage) (dc : Nat) (key : List Nat) :
    getAuthKeyFor (save (setAuthKeyFor s dc (some key))) dc = some key ∧
    getAuthKeyFor (save (setAuthKeyFor s dc none)) dc = none := by
  constructor
  · simp [getAuthKeyFor, save, setAuthKeyFor, List.foldl_append, runStmt, assocGet_set_self]
  · simp [getAuthKeyFor, save, setAuthKeyFor, List.foldl_append, runStmt, assocGet_del_self]

/-- Claim C6: reset() destroys all persisted auth keys: the where clause of
the delete compares a blob column against a text literal, which is true for
every row, so afterwards getAuthKeyFor returns null for every dc. -/
theorem c6_reset_clears_auth_keys (s : Storage) (dc : Nat) :
    getAuthKeyFor (reset s) dc = none := by
  have h : s.db.authKeys.filter (fun r => sqlEq (.blobVal r.2) (.textVal "ver")) = [] := by
    rw [List.filter_eq_nil_iff]
    intro a _
    simp [sqlEq]
  simp [getAuthKeyFor, reset, h, assocGet]

/-- Claim C7: getUpdatesState returns null while no global pts row exists;
after setUpdatesPts, setUpdatesDate and setUpdatesSeq are flushed via save()
it returns exactly the triple of the values written. -/
theorem c7_updates_state (s : Storage) (p d q : Int) :
    (assocGet s.db.kv "pts" = none → getUpdatesState s = none) ∧
    getUpdatesState (save (setUpdatesSeq (setUpdatesDate (setUpdatesPts s p) d) q)) =
      some (p, some d, some q) := by
  constructor
  · intro h
    simp [getUpdatesState, getFromKv, h]
  · have hd : ("date" : String) ≠ "pts" := by decide
    have hs1 : ("seq" : String) ≠ "pts" := by decide
    have hs2 : ("seq" : String) ≠ "date" := by decide
    simp [getUpdatesState, getFromKv, save, setUpdatesSeq, setUpdatesDate, setUpdatesPts,
          setToKv, List.foldl_append, runStmt, assocGet_set_self,
          assocGet_set_ne _ _ _ _ hs1, assocGet_set_ne _ _ _ _ hd,
          assocGet_set_ne _ _ _ _ hs2]

theorem c7_witness :
    getUpdatesState initStorage = none ∧
    getUpdatesState (save (setUpdatesSeq (setUpdatesDate (setUpdatesPts initStorage 10) 20) 30)) =
      some (10, some 20, some 30) :=
  ⟨(c7_updates_state initStorage 10 20 30).1 (by decide),
   (c7_updates_state initStorage 10 20 30).2⟩

/-- Claim C8: per-channel pts round trip through setManyChannelPts and
save(); a channel that was never written reads back as null. -/
theorem c8_channel_pts (s : Storage) (cid : Nat) (v : Int) :
    getChannelPts (save (setManyChannelPts s [(cid, v)])) cid = some v ∧
    ∀ c : Nat, getChannelPts initStorage c = none := by
  constructor
  · simp [getChannelPts, save, setManyChannelPts, List.foldl_append, runStmt, assocGet_set_self]
  · intro c
    simp [getChannelPts, initStorage, assocGet]

/-- Claim C10: writes are buffered until save(): setAuthKeyFor alone does not
change what getAuthKeyFor reads; save() applies the whole pending queue in
order to the database and empties it. -/
theorem c10_buffered_writes (s : Storage) (dc : Nat) (key : Option (List Nat)) :
    getAuthKeyFor (setAuthKeyFor s dc key) dc = getAuthKeyFor s dc ∧
    (save s).pending = [] ∧
    (save s).db = s.pending.foldl runStmt s.db := by
  refine ⟨rfl, ?_, ?_⟩ <;>
  · by_cases h : s.pending = [] <;> simp [save, h]

/-- Claim C4: username lookups honour the 24-hour TTL: a row whose updated
timestamp is more than USERNAME_TTL milliseconds before now reads as null;
a row within the TTL yields the input peer built from it. -/
theorem c4_getPeerByUsername_ttl (s : Storage) (now : Int) (u : String) (row : EntityRow)
    (hfind : s.db.entities.find? (fun r => decide (r.username = some (lowercase u))) = some row) :
    (now - row.updated > USERNAME_TTL → getPeerByUsername s now u = none) ∧
    (now - row.updated ≤ USERNAME_TTL → getPeerByUsername s now u = some (getInputPeer row)) := by
  constructor
  · intro h
    simp [getPeerByUsername, hfind, h]
  · intro h
    simp [getPeerByUsername, hfind, not_lt.mpr h]

def wRow : EntityRow :=
  { id := 7, hash := [42, 0], type := .user, username := some "alice",
    phone := none, updated := 0, full := [] }

def wStorage : Storage :=
  { db := { kv := [], authKeys := [], pts := [], entities := [wRow] }, pending := [] }

theorem c4_witness :
    getPeerByUsername wStorage 86400001 "ALICE" = none ∧
    getPeerByUsername wStorage 86400000 "ALICE" = some (getInputPeer wRow) :=
  ⟨(c4_getPeerByUsername_ttl wStorage 86400001 "ALICE" wRow (by decide)).1 (by decide),
   (c4_getPeerByUsername_ttl wStorage 86400000 "ALICE" wRow (by decide)).2 (by decide)⟩

/-! ### Update Manager pts acceptance (spec sections 3 and 4.5)

The Update Manager source is not among the source files; only the storage it
persists through is.  The per-stream acceptance rule is therefore modelled
from the specification. -/

inductive BatchResult
  | accepted
  | duplicate
  | gap
deriving DecidableEq

structure StreamState where
  localPts : Nat
deriving DecidableEq

/-- Modelled from the spec: the Update Manager per-stream rule (sections 3
and 4.5), whose source is not among the source files.  On a push batch with
counter newPts for a stream at localPts: newPts less than or equal to
localPts means duplicate, discard; newPts equal to localPts plus the number
of updates in the batch means apply (deliver the updates and advance
localPts); otherwise a gap is signalled.  The middle component of the result
is the list of updates handed to the update callback. -/
def handleBatch {α : Type} (st : StreamState) (newPts : Nat) (batch : List α) :
    StreamState × List α × BatchResult :=
  if newPts ≤ st.localPts then (st, [], .duplicate)
  else if newPts = st.localPts + batch.length then (⟨newPts⟩, batch, .accepted)
  else (st, [], .gap)

/-- Claim C1 counterexample: an empty batch carrying newPts equal to the
local pts satisfies the count equation newPts = localPts + count, yet the
spec rule (duplicate check first) drops it as a duplicate instead of
accepting it, so acceptance is not exactly the count equation. -/
theorem c1_counterexample :
    (5 : Nat) = 5 + ([] : List Nat).length ∧
    (handleBatch ⟨5⟩ 5 ([] : List Nat)).2.2 = .duplicate := by
  constructor
  · simp
  · rfl

/-- Claim C1, amended: a batch is accepted exactly when newPts is strictly
greater than localPts and equals localPts plus the number of updates in the
batch; a batch with newPts at most localPts is dropped as a duplicate,
leaving the stream state unchanged and delivering nothing to the update
callback; a batch with newPts strictly greater than localPts but different
from localPts plus the count signals a gap; an accepted batch advances
localPts to newPts and delivers exactly the updates of the batch. -/
theorem c1_amended {α : Type} (st : StreamState) (newPts : Nat) (batch : List α) :
    ((handleBatch st newPts batch).2.2 = .accepted ↔
      st.localPts < newPts ∧ newPts = st.localPts + batch.length) ∧
    (newPts ≤ st.localPts → handleBatch st newPts batch = (st, [], .duplicate)) ∧
    (st.localPts < newPts → newPts ≠ st.localPts + batch.length →
      handleBatch st newPts batch = (st, [], .gap)) ∧
    ((handleBatch st newPts batch).2.2 = .accepted →
      handleBatch st newPts batch = (⟨newPts⟩, batch, .accepted)) := by
  refine ⟨?_, ?_, ?_, ?_⟩
  · unfold handleBatch
    by_cases h1 : newPts ≤ st.localPts
    · rw [if_pos h1]
      constructor
      · intro h
        simp at h
      · intro h
        omega
    · by_cases h2 : newPts = st.localPts + batch.length
      · rw [if_neg h1, if_pos h2]
        constructor
        · intro _
          exact ⟨by omega, h2⟩
        · intro _
          rfl
      · rw [if_neg h1, if_neg h2]
        constructor
        · intro h
          simp at h
        · intro h
          exact absurd h.2 h2
  · intro h
    unfold handleBatch
    rw [if_pos h]
  · intro h1 h2
    unfold handleBatch
    rw [if_neg (by omega : ¬ newPts ≤ st.localPts), if_neg h2]
  · unfold handleBatch
    by_cases h1 : newPts ≤ st.localPts
    · rw [if_pos h1]
      intro h
      simp at h
    · by_cases h2 : newPts = st.localPts + batch.length
      · rw [if_neg h1, if_pos h2]
        intro _
        rw [h2]
      · rw [if_neg h1, if_neg h2]
        intro h
        simp at h

theorem c1_witness :
    (handleBatch ⟨4⟩ 6 [10, 20]).2.2 = .accepted ∧
    handleBatch ⟨4⟩ 3 ([30] : List Nat) = (⟨4⟩, [], .duplicate) ∧
    handleBatch ⟨4⟩ 9 ([30] : List Nat) = (⟨4⟩, [], .gap) :=
  ⟨(c1_amended ⟨4⟩ 6 [10, 20]).1.mpr (by decide),
   (c1_amended ⟨4⟩ 3 ([30] : List Nat)).2.1 (by decide),
   (c1_amended ⟨4⟩ 9 ([30] : List Nat)).2.2.1 (by decide) (by decide)⟩

/-! ### Session message-id and sequence-number assignment (spec sections 3
and 4.4)

The Session / message layer source is not among the source files; the
assignment rules are modelled from the specification. -/

/-- Modelled from the spec: the per-session counters of the message layer
(section 3), whose source is not among the source files: the last assigned
message id and the sequence-number counter (even; it counts two per content
message). -/
structure SessionState where
  lastMsgId : Nat
  seqNo : Nat
deriving DecidableEq

/-- msg_id is derived from wall-clock time, scaled by two to the thirty-two. -/
def MSG_ID_SCALE : Nat := 4294967296

/-- Modelled from the spec (section 4.4): the next msg_id is the scaled
wall-clock time; when that does not exceed the last assigned id (the clock
has not advanced), the low bits of the last id are incremented instead, by
four so that the two low type bits are preserved. -/
def nextMsgId (st : SessionState) (time : Nat) : Nat :=
  if time * MSG_ID_SCALE ≤ st.lastMsgId then st.lastMsgId + 4 else time * MSG_ID_SCALE

def assignMsgId (st : SessionState) (time : Nat) : Nat × SessionState :=
  (nextMsgId st time, { st with lastMsgId := nextMsgId st time })

/-- Modelled from the spec (section 4.4): a content message takes the next
odd value (counter plus one) and advances the counter by two; a service or
ack message uses the current even value and leaves the counter alone. -/
def assignSeqNo (st : SessionState) (isContent : Bool) : Nat × SessionState :=
  if isContent then (st.seqNo + 1, { st with seqNo := st.seqNo + 2 })
  else (st.seqNo, st)

/-- One outgoing send: the pair of assigned msg_id and seqno together with
the content flag, and the updated session state. -/
def sendOne (st : SessionState) (t : Nat × Bool) : (Nat × Nat × Bool) × SessionState :=
  let a := assignMsgId st t.1
  let b := assignSeqNo a.2 t.2
  ((a.1, b.1, t.2), b.2)

/-- Run a whole sequence of sends, collecting the assigned identifiers. -/
def runSends (st : SessionState) : List (Nat × Bool) → List (Nat × Nat × Bool) × SessionState
  | [] => ([], st)
  | t :: rest =>
    ((sendOne st t).1 :: (runSends (sendOne st t).2 rest).1, (runSends (sendOne st t).2 rest).2)

/-- A fresh session: no message id assigned yet, sequence counter zero. -/
def initSession : SessionState := ⟨0, 0⟩

def msgIds (outs : List (Nat × Nat × Bool)) : List Nat :=
  outs.map (fun o => o.1)

/-- The seqno discipline of the claim, phrased over the observable outputs:
walking the outputs while counting content messages, every content message
carries seqno equal to twice the count so far plus one, and every service
message carries seqno equal to twice the count so far. -/
def seqnosOk : Nat → List (Nat × Nat × Bool) → Prop
  | _, [] => True
  | c, o :: rest =>
    if o.2.2 then o.2.1 = 2 * c + 1 ∧ seqnosOk (c + 1) rest
    else o.2.1 = 2 * c ∧ seqnosOk c rest

theorem lastMsgId_lt_nextMsgId (st : SessionState) (time : Nat) :
    st.lastMsgId < nextMsgId st time := by
  unfold nextMsgId
  split <;> omega

theorem sendOne_msgId (st : SessionState) (t : Nat × Bool) :
    (sendOne st t).1.1 = nextMsgId st t.1 := by
  unfold sendOne assignMsgId assignSeqNo
  by_cases h : t.2 <;> simp [h]

theorem sendOne_lastMsgId (st : SessionState) (t : Nat × Bool) :
    (sendOne st t).2.lastMsgId = nextMsgId st t.1 := by
  unfold sendOne assignMsgId assignSeqNo
  by_cases h : t.2 <;> simp [h]

theorem runSends_msgIds_mono (sends : List (Nat × Bool)) (st : SessionState) :
    List.Pairwise (fun a b => a < b) (msgIds (runSends st sends).1) ∧
    ∀ m ∈ msgIds (runSends st sends).1, st.lastMsgId < m := by
  induction sends generalizing st with
  | nil => simp [runSends, msgIds]
  | cons t rest ih =>
    obtain ⟨ihp, ihm⟩ := ih (sendOne st t).2
    have hmid : (sendOne st t).1.1 = nextMsgId st t.1 := sendOne_msgId st t
    have hlast : (sendOne st t).2.lastMsgId = nextMsgId st t.1 := sendOne_lastMsgId st t
    have hlt : st.lastMsgId < nextMsgId st t.1 := lastMsgId_lt_nextMsgId st t.1
    constructor
    · simp only [runSends, msgIds, List.map_cons, List.pairwise_cons]
      refine ⟨?_, ihp⟩
      intro m hm
      have := ihm m hm
      omega
    · intro m hm
      simp only [runSends, msgIds, List.map_cons, List.mem_cons] at hm
      rcases hm with hm | hm
      · omega
      · have := ihm m hm
        omega

theorem runSends_seqnos (sends : List (Nat × Bool)) (st : SessionState) (c : Nat)
    (h : st.seqNo = 2 * c) : seqnosOk c (runSends st sends).1 := by
  induction sends generalizing st c with
  | nil => simp [runSends, seqnosOk]
  | cons t rest ih =>
    by_cases ht : t.2
    · have h1 : (sendOne st t).1 = ((nextMsgId st t.1), st.seqNo + 1, t.2) := by
        unfold sendOne assignMsgId assignSeqNo
        simp [ht]
      have h2 : (sendOne st t).2 = ⟨nextMsgId st t.1, st.seqNo + 2⟩ := by
        unfold sendOne assignMsgId assignSeqNo
        simp [ht]
      simp only [runSends, seqnosOk, h1, h2, ht, if_true]
      exact ⟨by omega, ih _ _ (by simp [h2]; omega)⟩
    · have h1 : (sendOne st t).1 = ((nextMsgId st t.1), st.seqNo, t.2) := by
        unfold sendOne assignMsgId assignSeqNo
        simp [ht]
      have h2 : (sendOne st t).2 = ⟨nextMsgId st t.1, st.seqNo⟩ := by
        unfold sendOne assignMsgId assignSeqNo
        simp [ht]
      simp only [runSends, seqnosOk, h1, h2, ht, if_false]
      exact ⟨by omega, ih _ _ (by simp [h2]; omega)⟩

/-- Claim C2: over any sequence of sends on one fresh session — including
sends whose wall-clock time never advances — the assigned msg_ids are
strictly increasing, and the seqnos follow the content rule: the k-th
content message carries 2k+1 (the next odd value, counter advanced by two)
and every service message carries twice the number of content messages sent
so far (the current even value, counter untouched). -/
theorem c2_msgid_seqno (sends : List (Nat × Bool)) :
    List.Pairwise (fun a b => a < b) (msgIds (runSends initSession sends).1) ∧
    seqnosOk 0 (runSends initSession sends).1 :=
  ⟨(runSends_msgIds_mono sends initSession).1,
   runSends_seqnos sends initSession 0 rfl⟩

/-! ### Diffie-Hellman parameter validation (spec section 4.1)

The Crypto Engine source is not among the source files; computeSharedSecret
is modelled from the specification.  The expected bit length of the prime is
2048 bits, matching the 2048-bit auth key the exchange produces. -/

inductive CryptoError
  | InvalidDhParameters
  | IntegrityMismatch
deriving DecidableEq

/-- Modelled from the spec: the prime must be a safe prime — p prime with
(p - 1) / 2 prime — of the expected bit length, 2048 bits. -/
def isValidDhPrime (p : Nat) : Bool :=
  decide (Nat.Prime p) && decide (Nat.Prime ((p - 1) / 2)) &&
    decide (2 ^ 2047 ≤ p) && decide (p < 2 ^ 2048)

/-- Modelled from the spec: the peer public power must satisfy
1 < theirPower < prime - 1 (small-subgroup protection). -/
def isValidDhPower (p theirPower : Nat) : Bool :=
  decide (1 < theirPower) && decide (theirPower < p - 1)

/-- Modelled from the spec: computeSharedSecret(g, prime, ourExponent,
theirPower), whose source is not among the source files.  It validates the
prime and the peer power, rejects with CryptoError::InvalidDhParameters when
either check fails, and otherwise returns theirPower raised to ourExponent
modulo the prime. -/
def computeSharedSecret (g prime ourExponent theirPower : Nat) : Except CryptoError Nat :=
  if isValidDhPrime prime && isValidDhPower prime theirPower then
    .ok (theirPower ^ ourExponent % prime)
  else .error .InvalidDhParameters

theorem validDh_iff (p theirPower : Nat) :
    (isValidDhPrime p && isValidDhPower p theirPower) = true ↔
      (Nat.Prime p ∧ Nat.Prime ((p - 1) / 2) ∧ 2 ^ 2047 ≤ p ∧ p < 2 ^ 2048 ∧
        1 < theirPower ∧ theirPower < p - 1) := by
  simp [isValidDhPrime, isValidDhPower, Bool.and_eq_true, decide_eq_true_iff, and_assoc]

/-- Claim C3: computeSharedSecret fails with CryptoError::InvalidDhParameters
exactly when the prime is not a safe prime of the expected bit length or the
peer power is not strictly between 1 and prime - 1, and it succeeds exactly
when both conditions hold. -/
theorem c3_computeSharedSecret (g p a theirPower : Nat) :
    (computeSharedSecret g p a theirPower = .error .InvalidDhParameters ↔
      ¬(Nat.Prime p ∧ Nat.Prime ((p - 1) / 2) ∧ 2 ^ 2047 ≤ p ∧ p < 2 ^ 2048 ∧
        1 < theirPower ∧ theirPower < p - 1)) ∧
    ((∃ s, computeSharedSecret g p a theirPower = .ok s) ↔
      (Nat.Prime p ∧ Nat.Prime ((p - 1) / 2) ∧ 2 ^ 2047 ≤ p ∧ p < 2 ^ 2048 ∧
        1 < theirPower ∧ theirPower < p - 1)) := by
  rw [← validDh_iff p theirPower]
  unfold computeSharedSecret
  by_cases h : (isValidDhPrime p && isValidDhPower p theirPower) = true
  · rw [if_pos h]
    constructor
    · constructor
      · intro he
        simp at he
      · intro hn
        exact absurd h hn
    · constructor
      · intro _
        exact h
      · intro _
        exact ⟨_, rfl⟩
  · rw [if_neg h]
    constructor
    · constructor
      · intro _
        exact h
      · intro _
        rfl
    · constructor
      · intro ⟨s, hs⟩
        simp at hs
      · intro hv
        exact absurd hv h

end Mtcute
